import Mathlib

/-!
Shallow embedding of the sqlitexx wrapper (a header-only C++14 binding layer
over SQLite3) and proofs about its observable contract.

The embedding translates the repository's headers:
  - include/sqlitexx/error.hpp        (error, execute_error)
  - include/sqlitexx/type_traits.hpp  (bind_traits, column_traits)
  - include/sqlitexx/statement.hpp    (statement, statement_iterator, statement_range)
  - include/sqlitexx/column.hpp       (transaction, connection)

The wrapped SQLite engine is modelled abstractly: a prepared statement's
behaviour from a fresh reset is a finite list of produced rows followed by a
terminal outcome (the DONE status, or an abnormal status code), and the
engine-visible statement state is a cursor position into that behaviour.
-/

set_option autoImplicit false

namespace Sqlitexx

/-- Engine status codes, as in sqlite3.h.  Only the codes the wrapper
inspects are given symbolically; every other `Int` is an abnormal code. -/
abbrev Code := Int

def SQLITE_OK : Code := 0
def SQLITE_ROW : Code := 100
def SQLITE_DONE : Code := 101
def SQLITE_ERROR : Code := 1
def SQLITE_RANGE : Code := 25

/-! ## Transaction guard (column.hpp, struct transaction)

The guard owns two pre-prepared statements (COMMIT, ROLLBACK) and the
boolean flag `needs_rollback`, initially true.  Executing either owned
statement is the only observable effect; we record those executions as an
event trace.  -/

/-- Observable effect of a transaction guard: executing its COMMIT
statement or its ROLLBACK statement. -/
inductive XactEv where
  | commitStmt
  | rollbackStmt
  deriving DecidableEq, Repr

/-- State of a transaction guard: the `needs_rollback` flag
(column.hpp line 152, initialised to true on construction). -/
structure Xact where
  needs_rollback : Bool
  deriving DecidableEq, Repr

namespace Xact

/-- Freshly constructed guard (the constructor also issues BEGIN on the
connection; that effect is on the connection, not the guard, and is not
part of the guard's own event trace). -/
def init : Xact := ⟨true⟩

/-- Embedding of transaction::commit: executes the COMMIT statement and
clears the flag only when `needs_rollback` holds. -/
def commit (t : Xact) : List XactEv × Xact :=
  if t.needs_rollback then ([.commitStmt], ⟨false⟩) else ([], t)

/-- Embedding of transaction::rollback: executes the ROLLBACK statement and
clears the flag only when `needs_rollback` holds. -/
def rollback (t : Xact) : List XactEv × Xact :=
  if t.needs_rollback then ([.rollbackStmt], ⟨false⟩) else ([], t)

/-- Embedding of the destructor: calls rollback() when the flag is still
set.  The returned state reflects the flag value after the body ran. -/
def destruct (t : Xact) : List XactEv × Xact :=
  if t.needs_rollback then rollback t else ([], t)

/-- Embedding of the move constructor: the target takes the source's flag
and the source's flag is set to false. -/
def moveCtor (src : Xact) : Xact × Xact :=
  (⟨src.needs_rollback⟩, ⟨false⟩)

/-- Embedding of move assignment: the target's flag is overwritten with the
source's and the source's flag is set to false. -/
def moveAssign (dst src : Xact) : Xact × Xact :=
  ((fun _ => (⟨src.needs_rollback⟩ : Xact)) dst, ⟨false⟩)

/-- The calls a user can make on a live guard. -/
inductive Op where
  | commit
  | rollback
  deriving DecidableEq, Repr

/-- Runs a sequence of commit/rollback calls, accumulating the executed
statements. -/
def run (t : Xact) : List Op → List XactEv × Xact
  | [] => ([], t)
  | o :: os =>
    let (ev, t') := match o with
      | .commit => t.commit
      | .rollback => t.rollback
    let (evs, t'') := run t' os
    (ev ++ evs, t'')

/-- The guard's lifetime trace: any sequence of commit/rollback calls
followed by destruction. -/
def lifeTrace (t : Xact) (ops : List Op) : List XactEv :=
  (run t ops).1 ++ (destruct (run t ops).2).1

end Xact

/-! ## Connection direct execution (column.hpp, connection::execute)

connection::execute calls sqlite3_exec with an out-parameter for an
engine-allocated diagnostic message and throws execute_error when the
status is not SQLITE_OK or a message was produced.  The engine call is
modelled by its two outputs: the status code and the optional message. -/

/-- The failure value carried by execute_error: status code and optional
engine diagnostic message (error.hpp lines 76-88). -/
structure ExecuteError where
  code : Code
  message : Option String
  deriving DecidableEq, Repr

namespace Conn

/-- Embedding of connection::execute, as a function of the sqlite3_exec
outcome: throws execute_error (carrying both code and message) when the
status is not SQLITE_OK or the message out-parameter was filled in. -/
def execute (ret : Code) (errorMsg : Option String) : Except ExecuteError Unit :=
  if ret ≠ SQLITE_OK ∨ errorMsg.isSome then .error ⟨ret, errorMsg⟩ else .ok ()

end Conn

/-! ## Width dispatch (type_traits.hpp, bind_traits / column_traits for integers)

bind_traits for an integer type T picks sqlite3_bind_int when
sizeof(T) < 8 and sqlite3_bind_int64 otherwise; column_traits picks
sqlite3_column_int / sqlite3_column_int64 by the same test.  A C++ integer
type is modelled by its byte size. -/

/-- The engine entry points an integer can be dispatched to. -/
inductive EngineCall where
  | bindInt
  | bindInt64
  | columnInt
  | columnInt64
  deriving DecidableEq, Repr

/-- Embedding of bind_traits for integer T: the integral_constant test
sizeof(T) < 8 selects do_integer_bind's true overload (sqlite3_bind_int)
or false overload (sqlite3_bind_int64). -/
def integerBindCall (sizeofT : Nat) : EngineCall :=
  if sizeofT < 8 then .bindInt else .bindInt64

/-- Embedding of column_traits for integer T: the same sizeof(T) < 8 test
selects do_integer_convert's sqlite3_column_int or sqlite3_column_int64
overload. -/
def integerColumnCall (sizeofT : Nat) : EngineCall :=
  if sizeofT < 8 then .columnInt else .columnInt64

/-! ## Owned string extraction (type_traits.hpp, column_traits for basic_string)

The narrow conversion reads sqlite3_column_bytes first and only touches the
sqlite3_column_text pointer inside the if(bytes) branch; the wide
conversion does the same with sqlite3_column_bytes16 / sqlite3_column_text16,
copying bytes/2 code units.  The engine's text pointer may be NULL (it is
for an SQL NULL), modelled as an Option; reading through NULL yields no
value rather than a string. -/

/-- Embedding of column_traits for basic_string of char: returns the empty
string when the byte count is zero, otherwise copies `bytes` characters
out of the engine pointer.  The result is none exactly when the code would
dereference a null pointer. -/
def convertOwnedString (bytes : Nat) (text : Option (List Char)) :
    Option (List Char) :=
  if bytes ≠ 0 then
    match text with
    | none => none
    | some cs => some (cs.take bytes)
  else some []

/-- Embedding of column_traits for basic_string of char16_t: as the narrow
case, but the engine reports a byte count and the copy is of bytes / 2
code units. -/
def convertOwnedString16 (bytes : Nat) (text : Option (List Char)) :
    Option (List Char) :=
  if bytes ≠ 0 then
    match text with
    | none => none
    | some cs => some (cs.take (bytes / 2))
  else some []

/-! ## Scalar bind/extract value model (type_traits.hpp)

Values bound and extracted through the integer and floating-point traits.
SQLite stores an integer cell as a 64-bit integer and a real cell as a
double; a double is an exact rational, so real cells are modelled as ℚ. -/

/-- Two's complement wrap of an integer value into `bits` bits: the
behaviour of the narrowing integer conversions the source relies on. -/
def wrapInt (bits : Nat) (v : Int) : Int :=
  (v + 2 ^ (bits - 1)) % 2 ^ bits - 2 ^ (bits - 1)

/-- The value range of a signed integer type of `size` bytes. -/
def intInRange (size : Nat) (v : Int) : Prop :=
  -(2 ^ (8 * size - 1)) ≤ v ∧ v < 2 ^ (8 * size - 1)

/-- Byte sizes of the supported integer types: is_integer covers bool,
short, int, long and long long, whose sizes on the supported platforms
are 1, 2, 4 and 8 bytes. -/
def supportedIntSize (size : Nat) : Prop :=
  size = 1 ∨ size = 2 ∨ size = 4 ∨ size = 8

/-- The engine cell after bind_traits for an integer T of `size` bytes
binds value `v`: a T smaller than 8 bytes passes through the int
parameter of sqlite3_bind_int (a conversion to 32 bits) and the engine
stores the int exactly in a 64-bit cell; an 8-byte T goes through
sqlite3_bind_int64, stored exactly. -/
def integerBindCell (size : Nat) (v : Int) : Int :=
  if size < 8 then wrapInt 32 v else wrapInt 64 v

/-- The value column_traits for an integer T of `size` bytes extracts
from a cell: sqlite3_column_int narrows the stored 64-bit value to int
and the int return value then converts to T; sqlite3_column_int64
returns the stored value, converting to the 8-byte T. -/
def integerExtractValue (size : Nat) (cell : Int) : Int :=
  if size < 8 then wrapInt (8 * size) (wrapInt 32 cell) else wrapInt 64 cell

/-- A rational exactly representable as an IEEE binary32 value: a dyadic
number with a 24-bit significand inside binary32's exponent range.  Only
the identity behaviour of conversions on such values matters below. -/
def float32Repr (q : ℚ) : Prop :=
  ∃ m : ℤ, ∃ e : ℕ, e ≤ 149 ∧ m.natAbs ≤ 2 ^ 24 ∧
    (q = (m : ℚ) * 2 ^ e ∨ q * 2 ^ e = (m : ℚ))

/-- The engine cell after bind_traits for double binds value `v`:
sqlite3_bind_double stores the double exactly. -/
def doubleBindCell (v : ℚ) : ℚ := v

/-- Extraction of a double: sqlite3_column_double returns the stored
value, and the conversion to T = double is the identity. -/
def doubleExtractValue (cell : ℚ) : ℚ := cell

/-- The engine cell after bind_traits for float (which inherits the
double trait) binds value `v`: the float argument widens exactly to
double at the call, and sqlite3_bind_double stores it exactly. -/
def floatBindCell (v : ℚ) : ℚ := v

/-- Extraction of a float: sqlite3_column_double returns the stored value
and the return statement converts double to float.  The narrowing
conversion belongs to the C++ implementation, so it is a parameter; the
C++ standard fixes it to the identity on exactly representable values,
which is the hypothesis the round-trip theorem places on it. -/
def floatExtractValue (narrowing : ℚ → ℚ) (cell : ℚ) : ℚ := narrowing cell

/-! ## Prepared statements (statement.hpp)

The engine behaviour of a prepared statement from a fresh reset is fixed
by the database contents: a finite list `rows` of produced rows, then
either SQLITE_DONE (`fin = none`) or an abnormal status (`fin = some c`).
The runtime state adds the cursor position `pos` (number of steps taken
since the last reset), the statement's parameter slots, the current
bindings, and the status of the most recent step (`last`), which
determines the return code of sqlite3_reset. -/

/-- Outcome of one sqlite3_step call. -/
inductive StepOutcome (α : Type) where
  | row (a : α)
  | done
  | err (c : Code)
  deriving DecidableEq, Repr

/-- Status code of a step outcome, as recorded by the engine. -/
def StepOutcome.code {α : Type} : StepOutcome α → Code
  | .row _ => SQLITE_ROW
  | .done => SQLITE_DONE
  | .err c => c

/-- Model of a prepared statement together with the engine state it
references. `α` is the row type, `V` the bindable value type. -/
structure Stmt (α V : Type) where
  rows : List α
  fin : Option Code
  pos : Nat
  paramNames : List (Option String)
  binds : Nat → Option V
  last : Option Code

namespace Stmt

variable {α V : Type}

/-- What the next sqlite3_step returns in state `s`: the next row while
rows remain, then the terminal outcome. -/
def stepResult (s : Stmt α V) : StepOutcome α :=
  if h : s.pos < s.rows.length then .row (s.rows.get ⟨s.pos, h⟩)
  else
    match s.fin with
    | none => .done
    | some c => .err c

/-- Embedding of sqlite3_step: produce the outcome, advance the cursor and
record the outcome's status as the most recent step result. -/
def step (s : Stmt α V) : StepOutcome α × Stmt α V :=
  (s.stepResult, { s with pos := s.pos + 1, last := some s.stepResult.code })

/-- Return code of sqlite3_reset: SQLITE_OK unless the most recent step
failed, in which case that failure code is returned again. -/
def resetCode (s : Stmt α V) : Code :=
  match s.last with
  | none => SQLITE_OK
  | some c => if c = SQLITE_ROW ∨ c = SQLITE_DONE then SQLITE_OK else c

/-- Embedding of sqlite3_reset: return the reset code and put the
statement back to its post-prepare, unstepped state. -/
def engineReset (s : Stmt α V) : Code × Stmt α V :=
  (s.resetCode, { s with pos := 0, last := none })

/-- Embedding of statement::reset (statement.hpp lines 223-228): throws
error(ret) when sqlite3_reset does not return SQLITE_OK. -/
def reset (s : Stmt α V) : Except Code (Stmt α V) :=
  let (ret, s') := s.engineReset
  if ret ≠ SQLITE_OK then .error ret else .ok s'

/-- Embedding of sqlite3_bind_parameter_index: the 1-based index of the
named parameter, 0 when the name does not occur in the query. -/
def bind_parameter_index (names : List (Option String)) (n : String) : Nat :=
  match names with
  | [] => 0
  | m :: rest =>
    if m = some n then 1
    else
      let r := bind_parameter_index rest n
      if r = 0 then 0 else r + 1

/-- Embedding of the engine's sqlite3_bind_* family at one index: records
the binding when the index is a valid parameter slot, otherwise returns
SQLITE_RANGE and leaves the statement unchanged. -/
def engineBind (s : Stmt α V) (i : Nat) (v : V) : Code × Stmt α V :=
  if 1 ≤ i ∧ i ≤ s.paramNames.length then
    (SQLITE_OK, { s with binds := fun j => if j = i then some v else s.binds j })
  else (SQLITE_RANGE, s)

/-- Embedding of statement::bind_to(int, T&&) (statement.hpp lines
191-197): throws error(ret) when the engine bind call fails. -/
def bind_to (s : Stmt α V) (i : Nat) (v : V) : Except Code (Stmt α V) :=
  let (ret, s') := s.engineBind i v
  if ret ≠ SQLITE_OK then .error ret else .ok s'

/-- Embedding of statement::bind_to(const String&, T&&) (statement.hpp
lines 199-208): resolves the name via the parameter-index lookup and
bails out silently when the index comes back 0. -/
def bind_to_named (s : Stmt α V) (n : String) (v : V) : Except Code (Stmt α V) :=
  let i := bind_parameter_index s.paramNames n
  if i = 0 then .ok s else s.bind_to i v

/-- One bind argument: a plain positional value or a named_parameter. -/
inductive Arg (V : Type) where
  | plain (v : V)
  | named (name : String) (v : V)
  deriving DecidableEq, Repr

/-- Whether an argument is a named_parameter (is_named_parameter trait). -/
def Arg.isNamed : Arg V → Bool
  | .plain _ => false
  | .named _ _ => true

/-- The value carried by an argument. -/
def Arg.value : Arg V → V
  | .plain v => v
  | .named _ v => v

/-- Embedding of bind_impl(std::true_type, ...): bind each argument by its
name.  The plain case cannot arise, because this path is taken only when
every argument is a named_parameter; it is mapped to a no-op. -/
def bindNamed (s : Stmt α V) : List (Arg V) → Except Code (Stmt α V)
  | [] => .ok s
  | .named n v :: rest => s.bind_to_named n v >>= fun s' => bindNamed s' rest
  | .plain _ :: rest => bindNamed s rest

/-- Embedding of bind_parameters (statement.hpp lines 287-291): bind each
argument positionally, at indices counting up from `i`, which the caller
starts at 1. -/
def bindPositional (s : Stmt α V) (i : Nat) : List (Arg V) → Except Code (Stmt α V)
  | [] => .ok s
  | a :: rest => s.bind_to i a.value >>= fun s' => bindPositional s' (i + 1) rest

/-- Embedding of statement::bind (statement.hpp lines 210-213): dispatch
on whether every argument is a named_parameter.  A call mixing named and
positional arguments does not compile in the source (there is no
bind_traits for named_parameter), so the positional path is only ever
reached with plain arguments. -/
def bind (s : Stmt α V) (args : List (Arg V)) : Except Code (Stmt α V) :=
  if args.all Arg.isNamed then s.bindNamed args else s.bindPositional 1 args

/-- Embedding of statement::execute() (statement.hpp lines 230-236): one
step; any outcome other than SQLITE_DONE or SQLITE_ROW throws error(ret);
otherwise reset() runs so the statement is ready for the next cycle. -/
def execute (s : Stmt α V) : Except Code (Stmt α V) :=
  let (r, s') := s.step
  match r with
  | .err c => .error c
  | _ => s'.reset

/-- Embedding of statement::execute(args...) (statement.hpp lines
238-246): bind the arguments, then the same step-check-reset body. -/
def executeWith (s : Stmt α V) (args : List (Arg V)) : Except Code (Stmt α V) :=
  s.bind args >>= fun sb =>
    let (r, s') := sb.step
    match r with
    | .err c => .error c
    | _ => s'.reset

/-- Embedding of the statement_iterator advance loop: the first advance
happens in begin()'s iterator construction, each later one in
operator++.  A row outcome is collected and iteration continues; DONE
stops the loop (iterator compares equal to end()); any other outcome
throws error(ret) at that step. -/
def iterate (s : Stmt α V) : Except Code (List α × Stmt α V) :=
  match h : s.step with
  | (.row a, s') => (iterate s').map fun p => (a :: p.1, p.2)
  | (.done, s') => .ok ([], s')
  | (.err c, _) => .error c
termination_by s.rows.length - s.pos
decreasing_by
  unfold step at h
  rw [Prod.mk.injEq] at h
  obtain ⟨h1, h2⟩ := h
  subst h2
  have hlt : s.pos < s.rows.length := by
    by_contra hge
    unfold stepResult at h1
    rw [dif_neg hge] at h1
    cases hfin : s.fin <;> simp [hfin] at h1
  simp only []
  omega

/-- Embedding of one full consumption of statement_range (statement.hpp
lines 167-187): begin() calls reset() before constructing the iterator,
then the range is iterated to end(). -/
def fetchPass (s : Stmt α V) : Except Code (List α × Stmt α V) :=
  s.reset >>= fun s0 => iterate s0

/-- The 1-based parameter slots that the named arguments of a bind call
actually resolve to; arguments whose name the lookup sends to 0 contribute
nothing. -/
def resolvedIdx (names : List (Option String)) : List (Arg V) → List Nat
  | [] => []
  | .named n _ :: rest =>
    let i := bind_parameter_index names n
    if i = 0 then resolvedIdx names rest else i :: resolvedIdx names rest
  | .plain _ :: rest => resolvedIdx names rest

end Stmt

/-! ## Helper lemmas -/

namespace Xact

theorem run_false (ops : List Op) : run ⟨false⟩ ops = ([], ⟨false⟩) := by
  induction ops with
  | nil => rfl
  | cons o os ih => cases o <;> simp [run, commit, rollback, ih]

theorem run_events_le (t : Xact) (ops : List Op) :
    (run t ops).1.length + (if (run t ops).2.needs_rollback then 1 else 0) ≤
      (if t.needs_rollback then 1 else 0) := by
  induction ops generalizing t with
  | nil => simp [run]
  | cons o os ih =>
    obtain ⟨b⟩ := t
    cases o <;> cases b <;> simp_all [run, commit, rollback, run_false]

theorem destruct_length (t : Xact) :
    (t.destruct).1.length = if t.needs_rollback then 1 else 0 := by
  obtain ⟨b⟩ := t
  cases b <;> simp [destruct, rollback]

theorem lifeTrace_length_le (t : Xact) (ops : List Op) :
    (lifeTrace t ops).length ≤ if t.needs_rollback then 1 else 0 := by
  have h := run_events_le t ops
  simp only [lifeTrace, List.length_append, destruct_length]
  exact h

theorem lifeTrace_false (ops : List Op) : lifeTrace ⟨false⟩ ops = [] := by
  simp [lifeTrace, run_false, destruct, rollback]

theorem lifeTrace_le_one (t : Xact) (ops : List Op) :
    (lifeTrace t ops).length ≤ 1 :=
  (lifeTrace_length_le t ops).trans (by split <;> simp)

end Xact

namespace Stmt

variable {α V : Type}

theorem bind_parameter_index_le (names : List (Option String)) (n : String) :
    bind_parameter_index names n ≤ names.length := by
  induction names with
  | nil => simp [bind_parameter_index]
  | cons m rest ih =>
    simp only [bind_parameter_index, List.length_cons]
    split
    · omega
    · split <;> omega

theorem bindNamed_spec (args : List (Arg V)) (s : Stmt α V) :
    ∃ s', s.bindNamed args = .ok s' ∧
      s'.rows = s.rows ∧ s'.fin = s.fin ∧ s'.pos = s.pos ∧
      s'.paramNames = s.paramNames ∧ s'.last = s.last ∧
      ∀ j, j ∉ resolvedIdx s.paramNames args → s'.binds j = s.binds j := by
  induction args generalizing s with
  | nil => exact ⟨s, rfl, rfl, rfl, rfl, rfl, rfl, fun _ _ => rfl⟩
  | cons a rest ih =>
    cases a with
    | plain v =>
      obtain ⟨s', h⟩ := ih s
      exact ⟨s', h⟩
    | named n v =>
      by_cases h0 : bind_parameter_index s.paramNames n = 0
      · obtain ⟨s', hs'⟩ := ih s
        refine ⟨s', ?_, hs'.2.1, hs'.2.2.1, hs'.2.2.2.1, hs'.2.2.2.2.1,
          hs'.2.2.2.2.2.1, ?_⟩
        · simpa [bindNamed, bind_to_named, h0] using hs'.1
        · intro j hj
          refine hs'.2.2.2.2.2.2 j ?_
          simpa [resolvedIdx, h0] using hj
      · have hle := bind_parameter_index_le s.paramNames n
        set i := bind_parameter_index s.paramNames n with hi
        set s1 : Stmt α V :=
          { s with binds := fun j => if j = i then some v else s.binds j } with hs1
        have hbound : 1 ≤ i ∧ i ≤ s.paramNames.length := ⟨by omega, hle⟩
        obtain ⟨s', hs'⟩ := ih s1
        have hnames : s1.paramNames = s.paramNames := rfl
        refine ⟨s', ?_, hs'.2.1, hs'.2.2.1, hs'.2.2.2.1,
          hnames ▸ hs'.2.2.2.2.1, hs'.2.2.2.2.2.1, ?_⟩
        · simpa [bindNamed, bind_to_named, h0, bind_to, engineBind, hbound,
            SQLITE_OK, SQLITE_RANGE] using hs'.1
        · intro j hj
          have hj' : j ∉ resolvedIdx s.paramNames rest ∧ j ≠ i := by
            simp only [resolvedIdx, ← hi, if_neg h0, List.mem_cons] at hj
            exact ⟨fun hmem => hj (Or.inr hmem), fun hji => hj (Or.inl hji)⟩
          have := hs'.2.2.2.2.2.2 j (by rw [hnames]; exact hj'.1)
          rw [this]
          simp [hs1, hj'.2]

theorem bindPositional_spec (args : List (Arg V)) (i : Nat) (s : Stmt α V)
    (hi : 1 ≤ i) (hlen : i + args.length ≤ s.paramNames.length + 1) :
    ∃ s', s.bindPositional i args = .ok s' ∧
      s'.rows = s.rows ∧ s'.fin = s.fin ∧ s'.pos = s.pos ∧
      s'.paramNames = s.paramNames ∧ s'.last = s.last ∧
      (∀ k (hk : k < args.length),
        s'.binds (i + k) = some ((args.get ⟨k, hk⟩).value)) ∧
      ∀ j, j < i ∨ i + args.length ≤ j → s'.binds j = s.binds j := by
  induction args generalizing i s with
  | nil =>
    exact ⟨s, rfl, rfl, rfl, rfl, rfl, rfl, fun k hk => absurd hk (by simp),
      fun _ _ => rfl⟩
  | cons a rest ih =>
    have hlen' : i ≤ s.paramNames.length := by
      simp only [List.length_cons] at hlen; omega
    set s1 : Stmt α V :=
      { s with binds := fun j => if j = i then some a.value else s.binds j }
      with hs1
    have hnames : s1.paramNames = s.paramNames := rfl
    obtain ⟨s', hok, hr, hf, hp, hn, hl, hbinds, hout⟩ :=
      ih (i + 1) s1 (by omega) (by
        simp only [List.length_cons] at hlen
        show i + 1 + rest.length ≤ s.paramNames.length + 1
        omega)
    refine ⟨s', ?_, hr, hf, hp, hnames ▸ hn, hl, ?_, ?_⟩
    · simpa [bindPositional, bind_to, engineBind, hi, hlen',
        SQLITE_OK, SQLITE_RANGE] using hok
    · intro k hk
      match k with
      | 0 =>
        have := hout i (by omega)
        simpa [hs1] using this
      | Nat.succ k' =>
        have hk' : k' < rest.length := by
          simpa [Nat.succ_lt_succ_iff] using hk
        have := hbinds k' hk'
        have harith : i + 1 + k' = i + (k' + 1) := by omega
        rw [harith] at this
        simpa using this
    · intro j hj
      simp only [List.length_cons] at hj
      have hj1 : j < i + 1 ∨ i + 1 + rest.length ≤ j := by
        rcases hj with h | h
        · exact Or.inl (by omega)
        · exact Or.inr (by omega)
      have hji : j ≠ i := by
        rcases hj with h | h <;> omega
      rw [hout j hj1]
      simp [hs1, hji]

theorem iterate_row {s s' : Stmt α V} {a : α} (h : s.step = (.row a, s')) :
    s.iterate = (s'.iterate).map fun p => (a :: p.1, p.2) := by
  rw [iterate]
  split <;> rename_i heq <;> rw [h] at heq <;>
    first
      | (injection heq with h1 h2; injection h1 with h3; subst h3; subst h2; rfl)
      | (injection heq with h1 h2; exact absurd h1 (by simp))

theorem iterate_done {s s' : Stmt α V} (h : s.step = (.done, s')) :
    s.iterate = .ok ([], s') := by
  rw [iterate]
  split <;> rename_i heq <;> rw [h] at heq <;>
    first
      | (injection heq with h1 h2; subst h2; rfl)
      | (injection heq with h1 h2; exact absurd h1 (by simp))

theorem iterate_err {s s' : Stmt α V} {c : Code} (h : s.step = (.err c, s')) :
    s.iterate = .error c := by
  rw [iterate]
  split <;> rename_i heq <;> rw [h] at heq <;>
    first
      | (injection heq with h1 h2; injection h1 with h3; subst h3; rfl)
      | (injection heq with h1 h2; exact absurd h1 (by simp))

theorem step_eq (s : Stmt α V) :
    s.step = (s.stepResult,
      { s with pos := s.pos + 1, last := some s.stepResult.code }) := rfl

theorem stepResult_row (s : Stmt α V) (h : s.pos < s.rows.length) :
    s.stepResult = .row (s.rows.get ⟨s.pos, h⟩) := dif_pos h

theorem stepResult_done (s : Stmt α V) (h : ¬ s.pos < s.rows.length)
    (hfin : s.fin = none) : s.stepResult = .done := by
  unfold stepResult
  rw [dif_neg h, hfin]

theorem stepResult_err (s : Stmt α V) {c : Code} (h : ¬ s.pos < s.rows.length)
    (hfin : s.fin = some c) : s.stepResult = .err c := by
  unfold stepResult
  rw [dif_neg h, hfin]

theorem iterate_ok_of_fin_none :
    ∀ (n : Nat) (s : Stmt α V), s.rows.length - s.pos = n →
      s.pos ≤ s.rows.length → s.fin = none →
      s.iterate = .ok (s.rows.drop s.pos,
        { s with pos := s.rows.length + 1, last := some SQLITE_DONE }) := by
  intro n
  induction n with
  | zero =>
    intro s hn hle hfin
    have hpos : s.pos = s.rows.length := by omega
    have hsr : s.stepResult = .done := stepResult_done s (by omega) hfin
    have hstep : s.step = (.done,
        { s with pos := s.pos + 1, last := some SQLITE_DONE }) := by
      rw [step_eq, hsr]; rfl
    rw [iterate_done hstep, hpos]
    simp
  | succ n ih =>
    intro s hn hle hfin
    have hlt : s.pos < s.rows.length := by omega
    have hsr : s.stepResult = .row (s.rows.get ⟨s.pos, hlt⟩) :=
      stepResult_row s hlt
    set s1 : Stmt α V := { s with pos := s.pos + 1, last := some SQLITE_ROW }
      with hs1
    have hstep : s.step = (.row (s.rows.get ⟨s.pos, hlt⟩), s1) := by
      rw [step_eq, hsr]; rfl
    rw [iterate_row hstep]
    rw [ih s1 (by simp [hs1]; omega) (by simp [hs1]; omega) (by simp [hs1, hfin])]
    simp only [Except.map, hs1]
    congr 1
    refine congrArg₂ Prod.mk ?_ rfl
    exact List.getElem_cons_drop s.rows s.pos hlt

theorem iterate_err_of_fin_some :
    ∀ (n : Nat) (s : Stmt α V) (c : Code), s.rows.length - s.pos = n →
      s.pos ≤ s.rows.length → s.fin = some c → s.iterate = .error c := by
  intro n
  induction n with
  | zero =>
    intro s c hn hle hfin
    have hsr : s.stepResult = .err c := stepResult_err s (by omega) hfin
    have hstep : s.step = (.err c,
        { s with pos := s.pos + 1, last := some c }) := by
      rw [step_eq, hsr]; rfl
    exact iterate_err hstep
  | succ n ih =>
    intro s c hn hle hfin
    have hlt : s.pos < s.rows.length := by omega
    have hsr : s.stepResult = .row (s.rows.get ⟨s.pos, hlt⟩) :=
      stepResult_row s hlt
    set s1 : Stmt α V := { s with pos := s.pos + 1, last := some SQLITE_ROW }
      with hs1
    have hstep : s.step = (.row (s.rows.get ⟨s.pos, hlt⟩), s1) := by
      rw [step_eq, hsr]; rfl
    rw [iterate_row hstep]
    rw [ih s1 c (by simp [hs1]; omega) (by simp [hs1]; omega) (by simp [hs1, hfin])]
    rfl

theorem fetchPass_spec (s : Stmt α V) (hreset : s.resetCode = SQLITE_OK) :
    (s.fin = none → s.fetchPass = .ok (s.rows,
      { s with pos := s.rows.length + 1, last := some SQLITE_DONE })) ∧
    ∀ c, s.fin = some c → s.fetchPass = .error c := by
  have hres : s.reset = .ok { s with pos := 0, last := none } := by
    unfold reset engineReset
    simp [hreset]
  constructor
  · intro hfin
    unfold fetchPass
    rw [hres]
    show Stmt.iterate _ = _
    rw [iterate_ok_of_fin_none (s.rows.length) { s with pos := 0, last := none }
      (by simp) (by simp) (by simpa using hfin)]
    simp
  · intro c hfin
    unfold fetchPass
    rw [hres]
    show Stmt.iterate _ = _
    exact iterate_err_of_fin_some (s.rows.length) _ c (by simp) (by simp)
      (by simpa using hfin)

theorem execute_spec (s : Stmt α V) :
    (∀ c, s.execute = .error c ↔ s.stepResult = .err c) ∧
    ∀ s', s.execute = .ok s' ↔
      ((s.stepResult = .done ∨ ∃ a, s.stepResult = .row a) ∧
        s' = { s with pos := 0, last := none }) := by
  rcases hsr : s.stepResult with a | _ | c0 <;>
    (have hstep := step_eq s; rw [hsr] at hstep) <;>
    constructor <;> intro x <;>
    simp [execute, hstep, StepOutcome.code, reset, engineReset, resetCode,
      SQLITE_OK, SQLITE_ROW, SQLITE_DONE, hsr, eq_comm]

theorem executeWith_eq (s : Stmt α V) (args : List (Arg V)) :
    s.executeWith args = s.bind args >>= Stmt.execute := rfl

end Stmt

/-- Wrapping into `bits` bits leaves a value inside the `bits`-bit range
unchanged. -/
theorem wrapInt_eq_self (bits : Nat) (v : Int) (hb : 1 ≤ bits)
    (h1 : -(2 ^ (bits - 1)) ≤ v) (h2 : v < 2 ^ (bits - 1)) :
    wrapInt bits v = v := by
  unfold wrapInt
  have hsplit : (2 : Int) ^ bits = 2 ^ (bits - 1) * 2 := by
    conv_lhs => rw [show bits = (bits - 1) + 1 by omega]
    rw [pow_succ]
  have hmod : (v + 2 ^ (bits - 1)) % 2 ^ bits = v + 2 ^ (bits - 1) := by
    exact Int.emod_eq_of_lt (by omega) (by omega)
  omega

/-! ## Claim theorems -/

/-- C1: for every transaction guard, at most one of commit/rollback ever
executes its statement over the guard's whole lifetime (any sequence of
commit/rollback calls followed by destruction); commit() and rollback()
are idempotent no-ops once the flag is cleared; and destruction of a
still-active guard performs the implicit rollback and clears the flag, so
a further destruction would be a no-op. -/
theorem transaction_guard_at_most_one (ops : List Xact.Op) :
    (Xact.lifeTrace Xact.init ops).length ≤ 1 ∧
    (∀ t : Xact, t.needs_rollback = false →
      t.commit = ([], t) ∧ t.rollback = ([], t) ∧ t.destruct = ([], t)) ∧
    Xact.destruct ⟨true⟩ = ([XactEv.rollbackStmt], ⟨false⟩) := by
  refine ⟨?_, ?_, ?_⟩
  · have h := Xact.lifeTrace_length_le Xact.init ops
    simpa [Xact.init] using h
  · intro t ht
    obtain ⟨b⟩ := t
    simp only at ht
    subst ht
    exact ⟨by simp [Xact.commit], by simp [Xact.rollback],
      by simp [Xact.destruct]⟩
  · simp [Xact.destruct, Xact.rollback]

theorem transaction_guard_at_most_one_witness :
    (Xact.lifeTrace Xact.init [Xact.Op.commit]).length ≤ 1 ∧
    (Xact.commit ⟨false⟩ = ([], (⟨false⟩ : Xact)) ∧
      Xact.rollback ⟨false⟩ = ([], (⟨false⟩ : Xact)) ∧
      Xact.destruct ⟨false⟩ = ([], (⟨false⟩ : Xact))) :=
  ⟨(transaction_guard_at_most_one [Xact.Op.commit]).1,
    (transaction_guard_at_most_one []).2.1 ⟨false⟩ rfl⟩

/-- C10: after a move (construction or assignment) the moved-from guard's
needs-rollback flag is false, so its commit, rollback and destructor are
all no-ops; the target takes over the source's flag, and across the pair
of objects at most one commit/rollback statement ever executes. -/
theorem transaction_move_transfers (t dst : Xact)
    (opsD opsS : List Xact.Op) :
    (Xact.moveCtor t).2.needs_rollback = false ∧
    (Xact.moveAssign dst t).2.needs_rollback = false ∧
    (Xact.moveCtor t).1.needs_rollback = t.needs_rollback ∧
    (Xact.moveAssign dst t).1.needs_rollback = t.needs_rollback ∧
    Xact.commit (Xact.moveCtor t).2 = ([], (Xact.moveCtor t).2) ∧
    Xact.rollback (Xact.moveCtor t).2 = ([], (Xact.moveCtor t).2) ∧
    Xact.destruct (Xact.moveCtor t).2 = ([], (Xact.moveCtor t).2) ∧
    (Xact.lifeTrace (Xact.moveCtor t).1 opsD).length +
      (Xact.lifeTrace (Xact.moveCtor t).2 opsS).length ≤ 1 := by
  refine ⟨rfl, rfl, rfl, rfl, by simp [Xact.commit, Xact.moveCtor],
    by simp [Xact.rollback, Xact.moveCtor],
    by simp [Xact.destruct, Xact.moveCtor], ?_⟩
  show (Xact.lifeTrace ⟨t.needs_rollback⟩ opsD).length +
      (Xact.lifeTrace ⟨false⟩ opsS).length ≤ 1
  rw [Xact.lifeTrace_false]
  simpa using Xact.lifeTrace_le_one ⟨t.needs_rollback⟩ opsD

/-- C6: connection::execute raises a failure carrying both the status code
and the diagnostic message exactly when the engine returns a non-success
status or produces a diagnostic message; otherwise it returns normally. -/
theorem connection_execute_raises_iff (ret : Code) (msg : Option String) :
    (Conn.execute ret msg = .error ⟨ret, msg⟩ ↔
      (ret ≠ SQLITE_OK ∨ msg ≠ none)) ∧
    (Conn.execute ret msg = .ok () ↔ (ret = SQLITE_OK ∧ msg = none)) ∧
    ∀ e, Conn.execute ret msg = .error e → e.code = ret ∧ e.message = msg := by
  refine ⟨?_, ?_, ?_⟩
  · unfold Conn.execute
    rcases msg with _ | m <;> by_cases h : ret = SQLITE_OK <;> simp [h]
  · unfold Conn.execute
    rcases msg with _ | m <;> by_cases h : ret = SQLITE_OK <;> simp [h]
  · intro e he
    unfold Conn.execute at he
    split at he
    · cases he
      exact ⟨rfl, rfl⟩
    · simp at he

theorem connection_execute_raises_iff_witness :
    ExecuteError.code ⟨1, none⟩ = 1 ∧
      ExecuteError.message ⟨1, none⟩ = (none : Option String) :=
  (connection_execute_raises_iff 1 none).2.2 ⟨1, none⟩
    ((connection_execute_raises_iff 1 none).1.mpr (Or.inl (by decide)))

/-- C7: for every supported integer type, both the bind dispatch and the
column-extraction dispatch select the 32-bit engine call when sizeof(T)
is below 8 bytes and the 64-bit engine call when sizeof(T) is 8 bytes. -/
theorem integer_width_dispatch (sizeofT : Nat) :
    (sizeofT < 8 →
      integerBindCall sizeofT = .bindInt ∧
      integerColumnCall sizeofT = .columnInt) ∧
    (sizeofT = 8 →
      integerBindCall sizeofT = .bindInt64 ∧
      integerColumnCall sizeofT = .columnInt64) := by
  constructor <;> intro h <;>
    simp [integerBindCall, integerColumnCall, h]

theorem integer_width_dispatch_witness :
    (integerBindCall 4 = .bindInt ∧ integerColumnCall 4 = .columnInt) ∧
    (integerBindCall 8 = .bindInt64 ∧ integerColumnCall 8 = .columnInt64) :=
  ⟨(integer_width_dispatch 4).1 (by decide),
    (integer_width_dispatch 8).2 rfl⟩

/-- C8: extracting an owned string object (narrow or wide) from a column
whose value has zero length returns the empty string, even when the
engine's text pointer is NULL: the pointer is never read in the
zero-length branch. -/
theorem owned_string_zero_length_safe (text : Option (List Char)) :
    convertOwnedString 0 text = some [] ∧
    convertOwnedString16 0 text = some [] := by
  simp [convertOwnedString, convertOwnedString16]

/-- C9: for every supported scalar type, binding a value and extracting
the same column at that type returns the original value: an 8-byte
integer keeps full precision through the 64-bit engine call, a narrower
integer through the 32-bit call; a double round-trips exactly, and a
float round-trips through the double cell for every implementation whose
double-to-float conversion is the identity on exactly representable
values (as the C++ standard requires). -/
theorem scalar_round_trip :
    (∀ size v, supportedIntSize size → intInRange size v →
      integerExtractValue size (integerBindCell size v) = v) ∧
    (∀ v : ℚ, doubleExtractValue (doubleBindCell v) = v) ∧
    (∀ narrowing : ℚ → ℚ, (∀ q, float32Repr q → narrowing q = q) →
      ∀ v : ℚ, float32Repr v →
        floatExtractValue narrowing (floatBindCell v) = v) := by
  refine ⟨?_, fun v => rfl, fun narrowing hn v hv => hn v hv⟩
  intro size v hs hv
  obtain ⟨h1, h2⟩ := hv
  rcases hs with h | h | h | h <;> subst h <;> norm_num at h1 h2
  · have hw32 : wrapInt 32 v = v :=
      wrapInt_eq_self 32 v (by norm_num) (by norm_num; omega) (by norm_num; omega)
    have hw8 : wrapInt 8 v = v :=
      wrapInt_eq_self 8 v (by norm_num) (by norm_num; omega) (by norm_num; omega)
    simp [integerBindCell, integerExtractValue, hw32, hw8]
  · have hw32 : wrapInt 32 v = v :=
      wrapInt_eq_self 32 v (by norm_num) (by norm_num; omega) (by norm_num; omega)
    have hw16 : wrapInt 16 v = v :=
      wrapInt_eq_self 16 v (by norm_num) (by norm_num; omega) (by norm_num; omega)
    simp [integerBindCell, integerExtractValue, hw32, hw16]
  · have hw32 : wrapInt 32 v = v :=
      wrapInt_eq_self 32 v (by norm_num) (by norm_num; omega) (by norm_num; omega)
    simp [integerBindCell, integerExtractValue, hw32]
  · have hw64 : wrapInt 64 v = v :=
      wrapInt_eq_self 64 v (by norm_num) (by norm_num; omega) (by norm_num; omega)
    simp [integerBindCell, integerExtractValue, hw64]

theorem scalar_round_trip_witness :
    integerExtractValue 8 (integerBindCell 8 4611686018427387904) =
      4611686018427387904 ∧
    integerExtractValue 2 (integerBindCell 2 300) = 300 ∧
    floatExtractValue id (floatBindCell (1 / 2)) = 1 / 2 :=
  ⟨scalar_round_trip.1 8 _ (Or.inr (Or.inr (Or.inr rfl)))
      (by norm_num [intInRange]),
    scalar_round_trip.1 2 300 (Or.inr (Or.inl rfl))
      (by norm_num [intInRange]),
    scalar_round_trip.2.2 id (fun q _ => rfl) (1 / 2)
      ⟨1, 1, by norm_num, by norm_num, Or.inr (by norm_num)⟩⟩

/-- C2: statement::execute, with or without bind arguments, raises a
failure carrying the engine status code exactly when the step result is
neither row nor done; on a row or done result the statement is
immediately reset (cursor back to 0, step status cleared), ready for the
next bind/execute cycle. -/
theorem statement_execute_contract {α V : Type} (s sb : Stmt α V)
    (args : List (Stmt.Arg V)) (hb : s.bind args = .ok sb) :
    (∀ c, s.execute = .error c ↔ s.stepResult = .err c) ∧
    (∀ s', s.execute = .ok s' ↔
      ((s.stepResult = .done ∨ ∃ a, s.stepResult = .row a) ∧
        s' = { s with pos := 0, last := none })) ∧
    (∀ c, s.executeWith args = .error c ↔ sb.stepResult = .err c) ∧
    (∀ s', s.executeWith args = .ok s' ↔
      ((sb.stepResult = .done ∨ ∃ a, sb.stepResult = .row a) ∧
        s' = { sb with pos := 0, last := none })) := by
  have he := Stmt.execute_spec s
  have heb := Stmt.execute_spec sb
  have hw : s.executeWith args = sb.execute := by
    rw [Stmt.executeWith_eq, hb]
    rfl
  exact ⟨he.1, he.2, fun c => by rw [hw]; exact heb.1 c,
    fun s' => by rw [hw]; exact heb.2 s'⟩

theorem statement_execute_contract_witness :
    Stmt.execute
        ({ rows := [7], fin := none, pos := 0, paramNames := [],
           binds := fun _ => none, last := none } : Stmt Nat Unit) =
      .ok { rows := [7], fin := none, pos := 0, paramNames := [],
            binds := fun _ => none, last := none } :=
  ((statement_execute_contract _ _ [] rfl).2.1 _).mpr
    ⟨Or.inr ⟨7, by decide⟩, rfl⟩

/-- C3: statement::bind: when every argument is a named parameter, each
name is resolved through the engine's parameter-index lookup, binding
completes without raising, and every slot no argument resolves to keeps
its previous (unbound) state — in particular an unresolved name is
silently skipped and binds nothing; when the arguments are positional,
each is bound at the 1-based index matching its position in argument
order. -/
theorem statement_bind_dispatch {α V : Type} (s : Stmt α V)
    (args : List (Stmt.Arg V)) :
    (args.all Stmt.Arg.isNamed = true →
      ∃ s', s.bind args = .ok s' ∧
        ∀ j, j ∉ Stmt.resolvedIdx s.paramNames args →
          s'.binds j = s.binds j) ∧
    (args.all (fun a => !a.isNamed) = true →
      args.length ≤ s.paramNames.length →
      ∃ s', s.bind args = .ok s' ∧
        (∀ k (hk : k < args.length),
          s'.binds (k + 1) = some ((args.get ⟨k, hk⟩).value)) ∧
        ∀ j, j = 0 ∨ args.length + 1 ≤ j → s'.binds j = s.binds j) := by
  constructor
  · intro hall
    obtain ⟨s', h1, _, _, _, _, _, h7⟩ := Stmt.bindNamed_spec args s
    exact ⟨s', by simp [Stmt.bind, hall, h1], h7⟩
  · intro hpos hlen
    cases args with
    | nil =>
      exact ⟨s, by simp [Stmt.bind, Stmt.bindNamed],
        fun k hk => absurd hk (by simp), fun _ _ => rfl⟩
    | cons a rest =>
      have ha : a.isNamed = false := by
        simp only [List.all_cons, Bool.and_eq_true, Bool.not_eq_true'] at hpos
        exact hpos.1
      have hnotall : ((a :: rest).all Stmt.Arg.isNamed) = false := by
        simp [List.all_cons, ha]
      obtain ⟨s', h1, _, _, _, _, _, hbinds, hout⟩ :=
        Stmt.bindPositional_spec (a :: rest) 1 s (le_refl 1) (by
          simp only [List.length_cons] at hlen ⊢
          omega)
      refine ⟨s', by simp [Stmt.bind, hnotall, h1], ?_, ?_⟩
      · intro k hk
        have := hbinds k hk
        rwa [Nat.add_comm 1 k] at this
      · intro j hj
        refine hout j ?_
        rcases hj with h | h
        · exact Or.inl (by omega)
        · exact Or.inr (by omega)

theorem statement_bind_dispatch_witness :
    ∃ s', Stmt.bind ({ rows := [], fin := none, pos := 0,
                       paramNames := [some "one"], binds := fun _ => none,
                       last := none } : Stmt Nat Int)
        [Stmt.Arg.named "missing" 5] = .ok s' ∧
      ∀ j, j ∉ Stmt.resolvedIdx [some "one"] [Stmt.Arg.named "missing" 5] →
        s'.binds j = (fun _ => (none : Option Int)) j :=
  (statement_bind_dispatch _ _).1 rfl

/-- C4: consuming the row sequence produced by fetch() twice in
succession yields the same list of rows both times: each fresh
consumption re-issues a reset before the first step. -/
theorem fetch_twice_same {α V : Type} (s s₁ : Stmt α V) (l : List α)
    (h : s.fetchPass = .ok (l, s₁)) :
    ∃ s₂, s₁.fetchPass = .ok (l, s₂) := by
  by_cases hr : s.resetCode = SQLITE_OK
  · have hspec := Stmt.fetchPass_spec s hr
    cases hfin : s.fin with
    | some c =>
      rw [hspec.2 c hfin] at h
      exact absurd h (by simp)
    | none =>
      rw [hspec.1 hfin] at h
      injection h with h'
      rw [Prod.mk.injEq] at h'
      obtain ⟨hl1, hl2⟩ := h'
      subst hl1
      subst hl2
      have hr₁ : Stmt.resetCode
          { s with pos := s.rows.length + 1, last := some SQLITE_DONE } =
            SQLITE_OK := by
        simp [Stmt.resetCode, SQLITE_DONE, SQLITE_ROW, SQLITE_OK]
      exact ⟨_, (Stmt.fetchPass_spec _ hr₁).1 hfin⟩
  · have hre : s.reset = .error s.resetCode := by
      unfold Stmt.reset Stmt.engineReset
      simp [hr]
    have hf : s.fetchPass = .error s.resetCode := by
      unfold Stmt.fetchPass
      rw [hre]
      rfl
    rw [hf] at h
    exact absurd h (by simp)

theorem fetch_twice_same_witness :
    ∃ s₂, Stmt.fetchPass ({ rows := [3], fin := none, pos := 2,
                            paramNames := [], binds := fun _ => none,
                            last := some SQLITE_DONE } : Stmt Nat Unit) =
      .ok ([3], s₂) :=
  fetch_twice_same
    ({ rows := [3], fin := none, pos := 5, paramNames := [],
       binds := fun _ => none, last := none } : Stmt Nat Unit)
    _ [3]
    ((Stmt.fetchPass_spec
      ({ rows := [3], fin := none, pos := 5, paramNames := [],
         binds := fun _ => none, last := none } : Stmt Nat Unit) rfl).1 rfl)

/-- C5: iterating a statement's row sequence is finite — it yields exactly
the statement's row list and terminates exactly when the engine reports
DONE; a step producing neither row nor done raises a failure carrying
that status code rather than being swallowed. -/
theorem iteration_finite_or_raises {α V : Type} (s : Stmt α V)
    (hreset : s.resetCode = SQLITE_OK) :
    ((∃ st, s.fetchPass = .ok (s.rows, st)) ↔ s.fin = none) ∧
    (∀ c, s.fetchPass = .error c ↔ s.fin = some c) ∧
    ∀ l st, s.fetchPass = .ok (l, st) → l = s.rows := by
  have hspec := Stmt.fetchPass_spec s hreset
  refine ⟨⟨?_, fun hfin => ⟨_, hspec.1 hfin⟩⟩, fun c => ⟨?_, hspec.2 c⟩, ?_⟩
  · rintro ⟨st, hst⟩
    cases hfin : s.fin with
    | none => rfl
    | some c =>
      rw [hspec.2 c hfin] at hst
      exact absurd hst (by simp)
  · intro herr
    cases hfin : s.fin with
    | none =>
      rw [hspec.1 hfin] at herr
      exact absurd herr (by simp)
    | some c' =>
      rw [hspec.2 c' hfin] at herr
      injection herr with hc
      rw [hc]
  · intro l st hst
    cases hfin : s.fin with
    | none =>
      rw [hspec.1 hfin] at hst
      cases hst
      rfl
    | some c =>
      rw [hspec.2 c hfin] at hst
      exact absurd hst (by simp)

theorem iteration_finite_or_raises_witness :
    Stmt.fetchPass ({ rows := [], fin := some 11, pos := 0, paramNames := [],
                      binds := fun _ => none, last := none } : Stmt Nat Unit) =
      .error 11 :=
  ((iteration_finite_or_raises
    ({ rows := [], fin := some 11, pos := 0, paramNames := [],
       binds := fun _ => none, last := none } : Stmt Nat Unit) rfl).2.1 11).mpr
    rfl

end Sqlitexx
